import Mathlib

set_option maxRecDepth 100000

/-!
A verification development for the MineClicker minesweeper engine
(`src/mineclicker/lib.py`).  The Python class `MineClicker` is embedded
shallowly: its numpy arrays `grid`, `flagged` and `swept` become total
functions from pairs of integers (the board occupies indices 0..7 in each
axis), its integer cell sentinels (9 unexplored, 10 mine, 11 exploded,
12 flag) are kept as the same natural numbers, and each method becomes a
Lean function.  Methods that can raise a Python exception (numpy
IndexError on an out-of-range index, TypeError inside `valid_location`)
return `Option`, with `none` standing for an uncaught exception.

The `flagged` and `swept` arrays only ever hold 0 or 1 in the source
(initialised to zeros, assigned `not old`, `1`, or `0`), so they are
embedded as Bool-valued functions with 0 = false and 1 = true.
-/

namespace Mineclicker

/-- Board height, `self.rows = 8` in the source. -/
def rows : Nat := 8

/-- Board width, `self.cols = 8` in the source. -/
def cols : Nat := 8

/-- Sentinel for an unswept tile, `self.unexplored = 9`. -/
def unexplored : Nat := 9

/-- Sentinel for an undetonated mine, `self.mine = 10`. -/
def mine : Nat := 10

/-- Sentinel for a detonated mine, `self.exploded = 11`. -/
def exploded : Nat := 11

/-- Sentinel used by `player_view` for a flagged tile, `self.flag = 12`. -/
def flag : Nat := 12

/-- The game grid: a total function on integer pairs.  The board is the
square 0..7 by 0..7; the Python array holds exactly those entries, and the
function is `unexplored` off the board (those cells are never written). -/
abbrev Grid := Int → Int → Nat

/-- A Bool-valued overlay (the `flagged` and `swept` numpy arrays). -/
abbrev BGrid := Int → Int → Bool

/-- The mutable state of a `MineClicker` instance: the three arrays, the
three outcome flags and the `number_of_mines` counter. -/
@[ext]
structure GameState where
  grid : Grid
  flagged : BGrid
  swept : BGrid
  won : Bool
  lost : Bool
  quit : Bool
  number_of_mines : Nat

/-- Write value `v` at cell `(r, c)` of a grid (numpy `grid[r, c] = v`). -/
def setCell (g : Grid) (r c : Int) (v : Nat) : Grid :=
  fun i j => if i = r ∧ j = c then v else g i j

/-- Write value `b` at cell `(r, c)` of a Bool overlay. -/
def setCellB (g : BGrid) (r c : Int) (b : Bool) : BGrid :=
  fun i j => if i = r ∧ j = c then b else g i j

/-- Resolution of one integer index into a numpy axis of length 8:
indices 0..7 address directly, indices -8..-1 wrap around to 0..7
(numpy negative indexing), anything else raises IndexError (`none`). -/
def npResolve (i : Int) : Option Int :=
  if 0 ≤ i ∧ i < 8 then some i
  else if -8 ≤ i ∧ i < 0 then some (i + 8)
  else none

/-- `MineClicker.valid_location` restricted to arguments that unpack into
two Python ints: `False` when a coordinate is out of 0..7, else `True`.
The bounds test mirrors the source line by line. -/
def valid_location (r c : Int) : Bool :=
  if r ≥ 8 ∨ r < 0 ∨ c ≥ 8 ∨ c < 0 then false else true

/-- The eight neighbour offsets built by `sum_adjacent_mines`, in source
order. -/
def adjacent_locations (r c : Int) : List (Int × Int) :=
  [(r + 1, c), (r - 1, c), (r, c + 1), (r, c - 1),
   (r + 1, c + 1), (r + 1, c - 1), (r - 1, c + 1), (r - 1, c - 1)]

/-- `MineClicker.sum_adjacent_mines`: among the eight adjacent locations,
count those that pass `valid_location` and currently hold `mine`.  The
source increments a counter in a loop; counting a filtered list is the
same tally. -/
def sum_adjacent_mines (s : GameState) (r c : Int) : Nat :=
  ((adjacent_locations r c).filter
    (fun p => valid_location p.1 p.2 && (s.grid p.1 p.2 == mine))).length

/-- The 64 board cells, row-major, as integer pairs.  This is the domain
the numpy arrays hold; array-wide source operations (`in`, `.any()`,
boolean masks) scan exactly these entries. -/
def cellList : List (Int × Int) :=
  (List.range 8).flatMap
    (fun r => (List.range 8).map (fun c => (Int.ofNat r, Int.ofNat c)))

/-- Membership test of value `v` in the grid array
(`v in self.grid` in the source). -/
def gridContains (g : Grid) (v : Nat) : Bool :=
  cellList.any (fun p => g p.1 p.2 == v)

/-- `MineClicker.check_game_state`: set `lost` if any cell is `exploded`,
otherwise set `won` if no cell is `unexplored`; otherwise change nothing. -/
def check_game_state (s : GameState) : GameState :=
  if gridContains s.grid exploded then { s with lost := true }
  else if gridContains s.grid unexplored = false then { s with won := true }
  else s

/-- `MineClicker.sweep_tile`: resolve the location as numpy does (raising,
i.e. `none`, when a coordinate is outside -8..7), mark it swept, turn a
mine into `exploded` or any other cell into its adjacency count (computed
at the original, unresolved coordinates, as the source passes `location`
straight to `sum_adjacent_mines`), then re-run `check_game_state`. -/
def sweep_tile (s : GameState) (r c : Int) : Option GameState :=
  match npResolve r, npResolve c with
  | some r1, some c1 =>
    let s1 : GameState := { s with swept := setCellB s.swept r1 c1 true }
    let s2 : GameState :=
      if s1.grid r1 c1 = mine then
        { s1 with grid := setCell s1.grid r1 c1 exploded }
      else
        { s1 with grid := setCell s1.grid r1 c1 (sum_adjacent_mines s1 r c) }
    some (check_game_state s2)
  | _, _ => none

/-- `MineClicker.flag_tile`: `self.flagged[location] = not self.flagged[location]`.
numpy resolves each coordinate (wrapping negatives in -8..-1, raising
IndexError otherwise) and the flag at the resolved cell is inverted. -/
def flag_tile (s : GameState) (r c : Int) : Option GameState :=
  match npResolve r, npResolve c with
  | some r1, some c1 =>
    some { s with flagged := setCellB s.flagged r1 c1 (!(s.flagged r1 c1)) }
  | _, _ => none

/-- `MineClicker.clear_swept_flags`: zero the flag at every swept cell. -/
def clear_swept_flags (s : GameState) : GameState :=
  { s with flagged := fun i j => if s.swept i j then false else s.flagged i j }

/-- `MineClicker.exit_game`: set the `quit` flag. -/
def exit_game (s : GameState) : GameState :=
  { s with quit := true }

/-- `MineClicker.player_view`: start from a copy of the grid, mask mine
cells, then mask unexplored cells, then overwrite flagged cells with the
flag sentinel, in source order.  `none` stands for numpy NaN. -/
def player_view (s : GameState) : Int → Int → Option Nat :=
  fun i j =>
    let v0 : Option Nat := some (s.grid i j)
    let v1 : Option Nat := if s.grid i j = mine then none else v0
    let v2 : Option Nat := if s.grid i j = unexplored then none else v1
    if s.flagged i j then some flag else v2

/-- An element of the `locations` list passed to the constructor, grouped
by how the Python code treats the value:

* `pair r c` — a sequence of exactly two Python ints, e.g. `(2, 3)`;
* `twoNonInts` — a sequence of exactly two values that do not compare
  with ints, e.g. the string "ab" or the tuple ("a", "b"): unpacking in
  `valid_location` succeeds but the bounds comparison raises TypeError,
  which the `try` block (covering only the unpacking) does not catch;
* `malformed` — any value that fails to unpack into exactly two
  components, e.g. "waffles", `90` or `(1, 2, 3)`: the unpacking raises,
  the exception is caught, and `valid_location` returns `False`. -/
inductive LocArg where
  | pair (r c : Int)
  | twoNonInts
  | malformed
deriving DecidableEq

/-- `MineClicker.valid_location` on the full argument universe; `none` is
an uncaught TypeError escaping the function. -/
def valid_location_arg : LocArg → Option Bool
  | .pair r c => some (valid_location r c)
  | .twoNonInts => none
  | .malformed => some false

/-- The state set up by the constructor before any mine is placed: all
cells `unexplored`, overlays clear, flags false, zero mines counted. -/
def emptyState : GameState where
  grid := fun _ _ => unexplored
  flagged := fun _ _ => false
  swept := fun _ _ => false
  won := false
  lost := false
  quit := false
  number_of_mines := 0

/-- One iteration of the constructor loop over `locations`: if
`valid_location` accepts the entry, write `mine` there and increment
`number_of_mines`; if it returns `False`, skip the entry; if it raises
(`twoNonInts`), the exception propagates and construction aborts. -/
def placeEntry (s : GameState) (e : LocArg) : Option GameState :=
  match e with
  | .pair r c =>
    if valid_location r c then
      some { s with grid := setCell s.grid r c mine,
                    number_of_mines := s.number_of_mines + 1 }
    else
      some s
  | .twoNonInts => none
  | .malformed => some s

/-- The constructor loop over the whole `locations` list. -/
def placeLoop : GameState → List LocArg → Option GameState
  | s, [] => some s
  | s, e :: rest =>
    match placeEntry s e with
    | some s1 => placeLoop s1 rest
    | none => none

/-- `MineClicker.__init__(locations)` with an explicit location list. -/
def initExplicit (entries : List LocArg) : Option GameState :=
  placeLoop emptyState entries

/-- `MineClicker.__init__(None)`, given the flat indices drawn by
`rand.sample(range(64), 10)`: each index `l` is converted by
`divmod(l, 8)` and that cell is set to `mine`; `number_of_mines` is 10. -/
def initRandom (sample : List Nat) : GameState :=
  sample.foldl
    (fun s l =>
      { s with grid := setCell s.grid (Int.ofNat (l / 8)) (Int.ofNat (l % 8)) mine })
    { emptyState with number_of_mines := 10 }

/-- The location of one constructor-list entry when it is a valid pair,
`none` otherwise (the accounting side of one loop iteration). -/
def validLoc : LocArg → Option (Int × Int)
  | LocArg.pair r c => if valid_location r c then some (r, c) else none
  | LocArg.twoNonInts => none
  | LocArg.malformed => none

/-- The valid locations occurring in an explicit `locations` list, in
order, duplicates kept (the accounting side of the constructor loop). -/
def validLocs (entries : List LocArg) : List (Int × Int) :=
  entries.filterMap validLoc

/-- Count the board cells whose value satisfies `p`. -/
def countCells (g : Grid) (p : Nat → Bool) : Nat :=
  (cellList.filter (fun q => p (g q.1 q.2))).length

/-- Whether a cell value is a mine, detonated or not. -/
def isMineOrExploded (v : Nat) : Bool :=
  v == mine || v == exploded

/-- The number of board cells holding `mine` or `exploded`. -/
def mineExplodedCount (g : Grid) : Nat :=
  countCells g isMineOrExploded

/-- The four mutating operations of the engine API. -/
inductive Op where
  | sweepOp (r c : Int)
  | flagOp (r c : Int)
  | clearOp
  | quitOp
deriving DecidableEq

/-- Apply one operation; `none` is a raised exception. -/
def applyOp (s : GameState) : Op → Option GameState
  | .sweepOp r c => sweep_tile s r c
  | .flagOp r c => flag_tile s r c
  | .clearOp => some (clear_swept_flags s)
  | .quitOp => some (exit_game s)

/-- Run a sequence of operations from a state; `none` as soon as one
raises. -/
def run : GameState → List Op → Option GameState
  | s, [] => some s
  | s, op :: ops =>
    match applyOp s op with
    | some t => run t ops
    | none => none

/-- Reachability by operations each allowed by the side condition `P` at
the state it fires from.  `fun _ _ => True` is plain reachability. -/
inductive ReachesVia (P : GameState → Op → Prop) : GameState → GameState → Prop where
  | refl (s : GameState) : ReachesVia P s s
  | step (s t u : GameState) (op : Op) (h1 : ReachesVia P s t) (h2 : P t op)
      (h3 : applyOp t op = some u) : ReachesVia P s u

/-- The side condition of the amended mine-count invariant: the operation
is not a sweep of a cell currently holding `exploded`. -/
def noResweepExploded (t : GameState) : Op → Prop :=
  fun op => ∀ r c r1 c1, op = Op.sweepOp r c → npResolve r = some r1 →
    npResolve c = some c1 → t.grid r1 c1 ≠ exploded

/-- The side condition of the amended mutual-exclusion invariant: the
operation is not a sweep fired after the game has already been decided. -/
def noSweepAfterEnd (t : GameState) : Op → Prop :=
  fun op => ∀ r c, op = Op.sweepOp r c → t.won = false ∧ t.lost = false

/-! ### Basic lemmas about indices and the board -/

theorem valid_location_iff (r c : Int) :
    valid_location r c = true ↔ (0 ≤ r ∧ r < 8 ∧ 0 ≤ c ∧ c < 8) := by
  unfold valid_location
  by_cases h : r ≥ 8 ∨ r < 0 ∨ c ≥ 8 ∨ c < 0
  · rw [if_pos h]
    constructor
    · intro hh; cases hh
    · intro hh; omega
  · rw [if_neg h]
    constructor
    · intro _; omega
    · intro _; rfl

theorem npResolve_bounds (i i1 : Int) (h : npResolve i = some i1) :
    0 ≤ i1 ∧ i1 < 8 := by
  unfold npResolve at h
  split at h
  · cases h; omega
  · split at h
    · cases h; omega
    · cases h

theorem npResolve_of_valid (i : Int) (h1 : 0 ≤ i) (h2 : i < 8) :
    npResolve i = some i := by
  unfold npResolve
  rw [if_pos ⟨h1, h2⟩]

theorem mem_cellList (r c : Int) :
    ((r, c) ∈ cellList) ↔ (0 ≤ r ∧ r < 8 ∧ 0 ≤ c ∧ c < 8) := by
  constructor
  · intro h
    obtain ⟨a, ha, hmem⟩ := List.mem_flatMap.mp h
    obtain ⟨b, hb, heq⟩ := List.mem_map.mp hmem
    have ha8 := List.mem_range.mp ha
    have hb8 := List.mem_range.mp hb
    have h1 : Int.ofNat a = r := congrArg Prod.fst heq
    have h2 : Int.ofNat b = c := congrArg Prod.snd heq
    simp only [Int.ofNat_eq_natCast] at h1 h2
    omega
  · rintro ⟨h1, h2, h3, h4⟩
    apply List.mem_flatMap.mpr
    refine ⟨r.toNat, List.mem_range.mpr (by omega), ?_⟩
    apply List.mem_map.mpr
    refine ⟨c.toNat, List.mem_range.mpr (by omega), ?_⟩
    have hr : Int.ofNat r.toNat = r := by
      simp only [Int.ofNat_eq_natCast]; omega
    have hc : Int.ofNat c.toNat = c := by
      simp only [Int.ofNat_eq_natCast]; omega
    rw [hr, hc]

theorem cellList_nodup : cellList.Nodup := by decide

theorem gridContains_iff (g : Grid) (v : Nat) :
    gridContains g v = true ↔ ∃ p, p ∈ cellList ∧ g p.1 p.2 = v := by
  unfold gridContains
  simp [List.any_eq_true]

/-! ### Counting lemmas -/

theorem filter_update_length {α : Type} (l : List α) (q : α) (f g : α → Bool)
    (hn : l.Nodup) (hq : q ∈ l) (hagree : ∀ p, p ∈ l → p ≠ q → g p = f p) :
    (l.filter g).length + (if f q = true then 1 else 0)
      = (l.filter f).length + (if g q = true then 1 else 0) := by
  induction l with
  | nil => cases hq
  | cons a l ih =>
    rw [List.nodup_cons] at hn
    rcases List.mem_cons.mp hq with rfl | hq1
    · have hfg : l.filter g = l.filter f := by
        apply List.filter_congr
        intro p hp
        exact hagree p (List.mem_cons_of_mem _ hp) (fun h => hn.1 (h ▸ hp))
      rw [List.filter_cons, List.filter_cons, hfg]
      by_cases h1 : f q = true
      · by_cases h2 : g q = true
        · rw [if_pos h1, if_pos h2, if_pos h1, if_pos h2]
        · rw [if_pos h1, if_neg h2, if_pos h1, if_neg h2]
          simp
      · by_cases h2 : g q = true
        · rw [if_neg h1, if_pos h2, if_neg h1, if_pos h2]
          simp
        · rw [if_neg h1, if_neg h2, if_neg h1, if_neg h2]
    · have ha : g a = f a := hagree a (List.mem_cons_self a l) (fun h => hn.1 (h ▸ hq1))
      have := ih hn.2 hq1 (fun p hp hpq => hagree p (List.mem_cons_of_mem _ hp) hpq)
      simp only [List.filter_cons, ha]
      by_cases h1 : f a = true
      · simp only [if_pos h1, List.length_cons]
        omega
      · simp only [if_neg h1]
        omega

theorem countCells_setCell (g : Grid) (r c : Int) (v : Nat) (p : Nat → Bool)
    (hmem : (r, c) ∈ cellList) :
    countCells (setCell g r c v) p + (if p (g r c) = true then 1 else 0)
      = countCells g p + (if p v = true then 1 else 0) := by
  unfold countCells
  have := filter_update_length cellList (r, c)
    (fun q => p (g q.1 q.2)) (fun q => p (setCell g r c v q.1 q.2))
    cellList_nodup hmem ?_
  · have hrc : setCell g r c v r c = v := by simp [setCell]
    simpa [hrc] using this
  · intro q _ hne
    have : setCell g r c v q.1 q.2 = g q.1 q.2 := by
      unfold setCell
      rw [if_neg]
      intro ⟨h1, h2⟩
      exact hne (Prod.ext h1 h2)
    simp only [this]

theorem countCells_setCell_same (g : Grid) (r c : Int) (v : Nat) (p : Nat → Bool)
    (hmem : (r, c) ∈ cellList) (h : p v = p (g r c)) :
    countCells (setCell g r c v) p = countCells g p := by
  have := countCells_setCell g r c v p hmem
  rw [h] at this
  omega

theorem countCells_setCell_incr (g : Grid) (r c : Int) (v : Nat) (p : Nat → Bool)
    (hmem : (r, c) ∈ cellList) (hold : p (g r c) = false) (hnew : p v = true) :
    countCells (setCell g r c v) p = countCells g p + 1 := by
  have := countCells_setCell g r c v p hmem
  rw [hold, hnew] at this
  simp at this
  omega

theorem sum_adjacent_mines_le (s : GameState) (r c : Int) :
    sum_adjacent_mines s r c ≤ 8 := by
  unfold sum_adjacent_mines
  have := List.length_filter_le
    (fun p => valid_location p.1 p.2 && (s.grid p.1 p.2 == mine))
    (adjacent_locations r c)
  simpa [adjacent_locations] using this

theorem isMineOrExploded_of_le (n : Nat) (h : n ≤ 8) :
    isMineOrExploded n = false := by
  unfold isMineOrExploded mine exploded
  simp only [Bool.or_eq_false_iff, beq_eq_false_iff_ne]
  omega

/-! ### Structure of the operations -/

theorem check_game_state_cases (s : GameState) :
    check_game_state s = { s with lost := true } ∨
    check_game_state s = { s with won := true } ∨
    check_game_state s = s := by
  unfold check_game_state
  by_cases h1 : gridContains s.grid exploded = true
  · rw [if_pos h1]
    exact Or.inl rfl
  · rw [if_neg h1]
    by_cases h2 : gridContains s.grid unexplored = false
    · rw [if_pos h2]
      exact Or.inr (Or.inl rfl)
    · rw [if_neg h2]
      exact Or.inr (Or.inr rfl)

theorem check_game_state_grid (s : GameState) :
    (check_game_state s).grid = s.grid ∧
    (check_game_state s).swept = s.swept ∧
    (check_game_state s).flagged = s.flagged ∧
    (check_game_state s).quit = s.quit ∧
    (check_game_state s).number_of_mines = s.number_of_mines := by
  rcases check_game_state_cases s with h | h | h <;> rw [h] <;>
    exact ⟨rfl, rfl, rfl, rfl, rfl⟩

theorem sweep_tile_eq (s : GameState) (r c r1 c1 : Int)
    (hr : npResolve r = some r1) (hc : npResolve c = some c1) :
    sweep_tile s r c = some (check_game_state
      { s with swept := setCellB s.swept r1 c1 true,
               grid := setCell s.grid r1 c1
                 (if s.grid r1 c1 = mine then exploded
                  else sum_adjacent_mines s r c) }) := by
  unfold sweep_tile
  rw [hr, hc]
  by_cases h : s.grid r1 c1 = mine
  · simp only [h, if_pos]
  · simp only [if_neg h]
    rfl

theorem sweep_tile_none (s : GameState) (r c : Int)
    (h : npResolve r = none ∨ npResolve c = none) :
    sweep_tile s r c = none := by
  unfold sweep_tile
  rcases h with h | h <;> rw [h]
  rcases hr : npResolve r with _ | r1 <;> rfl

theorem flag_tile_eq (s : GameState) (r c r1 c1 : Int)
    (hr : npResolve r = some r1) (hc : npResolve c = some c1) :
    flag_tile s r c =
      some { s with flagged := setCellB s.flagged r1 c1 (!(s.flagged r1 c1)) } := by
  unfold flag_tile
  rw [hr, hc]

theorem flag_tile_none (s : GameState) (r c : Int)
    (h : npResolve r = none ∨ npResolve c = none) :
    flag_tile s r c = none := by
  unfold flag_tile
  rcases h with h | h <;> rw [h]
  rcases hr : npResolve r with _ | r1 <;> rfl

/-! ### The constructor loop -/

theorem placeEntry_pair_valid (s : GameState) (r c : Int)
    (h : valid_location r c = true) :
    placeEntry s (LocArg.pair r c) =
      some { s with grid := setCell s.grid r c mine,
                    number_of_mines := s.number_of_mines + 1 } := by
  simp [placeEntry, h]

theorem placeEntry_pair_invalid (s : GameState) (r c : Int)
    (h : valid_location r c = false) :
    placeEntry s (LocArg.pair r c) = some s := by
  simp [placeEntry, h]

theorem placeEntry_malformed (s : GameState) :
    placeEntry s LocArg.malformed = some s := by
  simp [placeEntry]

theorem placeLoop_cons (s : GameState) (e : LocArg) (rest : List LocArg)
    (s1 : GameState) (h : placeEntry s e = some s1) :
    placeLoop s (e :: rest) = placeLoop s1 rest := by
  rw [placeLoop, h]

theorem validLoc_pair_valid (r c : Int) (h : valid_location r c = true) :
    validLoc (LocArg.pair r c) = some (r, c) := by
  simp [validLoc, h]

theorem validLoc_pair_invalid (r c : Int) (h : valid_location r c = false) :
    validLoc (LocArg.pair r c) = none := by
  simp [validLoc, h]

theorem validLocs_cons_pair_valid (r c : Int) (rest : List LocArg)
    (h : valid_location r c = true) :
    validLocs (LocArg.pair r c :: rest) = (r, c) :: validLocs rest := by
  unfold validLocs
  rw [List.filterMap_cons, validLoc_pair_valid r c h]

theorem validLocs_cons_pair_invalid (r c : Int) (rest : List LocArg)
    (h : valid_location r c = false) :
    validLocs (LocArg.pair r c :: rest) = validLocs rest := by
  unfold validLocs
  rw [List.filterMap_cons, validLoc_pair_invalid r c h]

theorem validLocs_cons_malformed (rest : List LocArg) :
    validLocs (LocArg.malformed :: rest) = validLocs rest := rfl

theorem validLocs_nil : validLocs [] = [] := rfl

theorem placeLoop_spec (entries : List LocArg) :
    ∀ s : GameState, LocArg.twoNonInts ∉ entries →
    ∃ s1, placeLoop s entries = some s1 ∧
      s1.number_of_mines = s.number_of_mines + (validLocs entries).length ∧
      (∀ i j : Int, s1.grid i j = mine ↔
        (s.grid i j = mine ∨ (i, j) ∈ validLocs entries)) ∧
      (∀ i j : Int, s1.grid i j ≠ mine → s1.grid i j = s.grid i j) ∧
      s1.flagged = s.flagged ∧ s1.swept = s.swept ∧ s1.won = s.won ∧
      s1.lost = s.lost ∧ s1.quit = s.quit := by
  induction entries with
  | nil =>
    intro s _
    refine ⟨s, rfl, by rw [validLocs_nil]; rfl, ?_, fun i j _ => rfl,
      rfl, rfl, rfl, rfl, rfl⟩
    intro i j
    rw [validLocs_nil]
    simp
  | cons e rest ih =>
    intro s hno
    have hno2 : LocArg.twoNonInts ∉ rest := fun hmem => hno (List.mem_cons_of_mem _ hmem)
    match e with
    | LocArg.pair r c =>
      by_cases hv : valid_location r c = true
      · obtain ⟨s1, hloop, hnum, hiff, hother, hfl, hsw, hw, hl, hq⟩ :=
          ih ({ s with grid := setCell s.grid r c mine,
                       number_of_mines := s.number_of_mines + 1 }) hno2
        refine ⟨s1, ?_, ?_, ?_, ?_, hfl, hsw, hw, hl, hq⟩
        · rw [placeLoop_cons s _ rest _ (placeEntry_pair_valid s r c hv)]
          exact hloop
        · rw [validLocs_cons_pair_valid r c rest hv, List.length_cons]
          rw [hnum]
          dsimp only
          omega
        · intro i j
          rw [hiff i j, validLocs_cons_pair_valid r c rest hv]
          simp only [setCell]
          constructor
          · rintro (hm | hmem)
            · by_cases hij : i = r ∧ j = c
              · right
                rw [List.mem_cons]
                left
                rw [hij.1, hij.2]
              · rw [if_neg hij] at hm
                left
                exact hm
            · right
              exact List.mem_cons_of_mem _ hmem
          · rintro (hm | hmem)
            · left
              by_cases hij : i = r ∧ j = c
              · rw [if_pos hij]
              · rw [if_neg hij]
                exact hm
            · rw [List.mem_cons] at hmem
              rcases hmem with heq | hmem
              · left
                rw [if_pos ⟨congrArg Prod.fst heq, congrArg Prod.snd heq⟩]
              · right
                exact hmem
        · intro i j hne
          have h1 := hother i j hne
          simp only [setCell] at h1
          by_cases hij : i = r ∧ j = c
          · rw [if_pos hij] at h1
            exact absurd h1 hne
          · rw [if_neg hij] at h1
            exact h1
      · have hv2 : valid_location r c = false := by
          cases hvl : valid_location r c
          · rfl
          · exact absurd hvl hv
        obtain ⟨s1, hloop, hnum, hiff, hother, hfl, hsw, hw, hl, hq⟩ := ih s hno2
        refine ⟨s1, ?_, ?_, ?_, hother, hfl, hsw, hw, hl, hq⟩
        · rw [placeLoop_cons s _ rest _ (placeEntry_pair_invalid s r c hv2)]
          exact hloop
        · rw [validLocs_cons_pair_invalid r c rest hv2]
          exact hnum
        · intro i j
          rw [validLocs_cons_pair_invalid r c rest hv2]
          exact hiff i j
    | LocArg.twoNonInts =>
      exact absurd (List.mem_cons_self _ _) hno
    | LocArg.malformed =>
      obtain ⟨s1, hloop, hnum, hiff, hother, hfl, hsw, hw, hl, hq⟩ := ih s hno2
      refine ⟨s1, ?_, ?_, ?_, hother, hfl, hsw, hw, hl, hq⟩
      · rw [placeLoop_cons s _ rest _ (placeEntry_malformed s)]
        exact hloop
      · rw [validLocs_cons_malformed]
        exact hnum
      · intro i j
        rw [validLocs_cons_malformed]
        exact hiff i j

theorem placeLoop_count (entries : List LocArg) :
    ∀ s : GameState, LocArg.twoNonInts ∉ entries →
    (validLocs entries).Nodup →
    (∀ p, p ∈ validLocs entries → isMineOrExploded (s.grid p.1 p.2) = false) →
    ∀ s1, placeLoop s entries = some s1 →
      mineExplodedCount s1.grid =
        mineExplodedCount s.grid + (validLocs entries).length := by
  induction entries with
  | nil =>
    intro s _ _ _ s1 h
    cases h
    rw [validLocs_nil]
    rfl
  | cons e rest ih =>
    intro s hno hnodup hfresh s1 hloop
    have hno2 : LocArg.twoNonInts ∉ rest := fun hmem => hno (List.mem_cons_of_mem _ hmem)
    match e with
    | LocArg.pair r c =>
      by_cases hv : valid_location r c = true
      · rw [validLocs_cons_pair_valid r c rest hv] at hnodup hfresh ⊢
        rw [List.nodup_cons] at hnodup
        rw [placeLoop_cons s _ rest _ (placeEntry_pair_valid s r c hv)] at hloop
        have hbounds := (valid_location_iff r c).mp hv
        have hmem : (r, c) ∈ cellList := (mem_cellList r c).mpr hbounds
        have hold : isMineOrExploded (s.grid r c) = false :=
          hfresh (r, c) (List.mem_cons_self _ _)
        have hstep : mineExplodedCount (setCell s.grid r c mine) =
            mineExplodedCount s.grid + 1 := by
          apply countCells_setCell_incr _ _ _ _ _ hmem hold
          rfl
        have hrec := ih { s with grid := setCell s.grid r c mine,
                                 number_of_mines := s.number_of_mines + 1 }
          hno2 hnodup.2 ?_ s1 hloop
        · rw [List.length_cons]
          unfold mineExplodedCount at hrec hstep ⊢
          dsimp only at hrec
          rw [hrec, hstep]
          omega
        · intro p hp
          have hne : p ≠ (r, c) := fun h => hnodup.1 (h ▸ hp)
          dsimp only
          have : setCell s.grid r c mine p.1 p.2 = s.grid p.1 p.2 := by
            unfold setCell
            rw [if_neg]
            intro ⟨h1, h2⟩
            exact hne (Prod.ext h1 h2)
          rw [this]
          exact hfresh p (List.mem_cons_of_mem _ hp)
      · have hv2 : valid_location r c = false := by
          cases hvl : valid_location r c
          · rfl
          · exact absurd hvl hv
        rw [validLocs_cons_pair_invalid r c rest hv2] at hnodup hfresh ⊢
        rw [placeLoop_cons s _ rest _ (placeEntry_pair_invalid s r c hv2)] at hloop
        exact ih s hno2 hnodup hfresh s1 hloop
    | LocArg.twoNonInts =>
      exact absurd (List.mem_cons_self _ _) hno
    | LocArg.malformed =>
      rw [validLocs_cons_malformed] at hnodup hfresh ⊢
      rw [placeLoop_cons s _ rest _ (placeEntry_malformed s)] at hloop
      exact ih s hno2 hnodup hfresh s1 hloop

theorem emptyState_count : mineExplodedCount emptyState.grid = 0 := by decide

/-- The count of a freshly explicitly-constructed state: when the valid
locations of the entry list are distinct, the board holds exactly
`number_of_mines` cells with `mine` or `exploded`. -/
theorem initExplicit_count (entries : List LocArg)
    (hno : LocArg.twoNonInts ∉ entries) (hnodup : (validLocs entries).Nodup)
    (s0 : GameState) (h : initExplicit entries = some s0) :
    mineExplodedCount s0.grid = s0.number_of_mines := by
  obtain ⟨s1, hloop, hnum, _, _, _, _, _, _, _⟩ := placeLoop_spec entries emptyState hno
  rw [initExplicit] at h
  rw [h] at hloop
  cases hloop
  have hcount := placeLoop_count entries emptyState hno hnodup ?_ s0 h
  · rw [hcount, emptyState_count, hnum]
    rfl
  · intro p _
    rfl

theorem initRandomFold_count (sample : List Nat) :
    ∀ s : GameState, sample.Nodup → (∀ l, l ∈ sample → l < 64) →
    (∀ l, l ∈ sample →
      isMineOrExploded (s.grid (Int.ofNat (l / 8)) (Int.ofNat (l % 8))) = false) →
    mineExplodedCount
        ((sample.foldl
          (fun t l =>
            { t with grid := setCell t.grid (Int.ofNat (l / 8)) (Int.ofNat (l % 8)) mine })
          s).grid)
      = mineExplodedCount s.grid + sample.length ∧
    (sample.foldl
      (fun t l =>
        { t with grid := setCell t.grid (Int.ofNat (l / 8)) (Int.ofNat (l % 8)) mine })
      s).number_of_mines = s.number_of_mines := by
  induction sample with
  | nil =>
    intro s _ _ _
    exact ⟨rfl, rfl⟩
  | cons l rest ih =>
    intro s hnodup hlt hfresh
    rw [List.nodup_cons] at hnodup
    rw [List.foldl_cons]
    have hl64 : l < 64 := hlt l (List.mem_cons_self _ _)
    have hmem : (Int.ofNat (l / 8), Int.ofNat (l % 8)) ∈ cellList := by
      rw [mem_cellList]
      simp only [Int.ofNat_eq_natCast]
      omega
    have hstep : mineExplodedCount
        (setCell s.grid (Int.ofNat (l / 8)) (Int.ofNat (l % 8)) mine) =
        mineExplodedCount s.grid + 1 := by
      apply countCells_setCell_incr _ _ _ _ _ hmem
        (hfresh l (List.mem_cons_self _ _))
      rfl
    have hrec := ih { s with grid := setCell s.grid (Int.ofNat (l / 8))
                                       (Int.ofNat (l % 8)) mine }
      hnodup.2 (fun x hx => hlt x (List.mem_cons_of_mem _ hx)) ?_
    · rw [List.length_cons]
      refine ⟨?_, hrec.2⟩
      rw [hrec.1]
      dsimp only
      rw [hstep]
      omega
    · intro x hx
      have hxl : x ≠ l := fun h => hnodup.1 (h ▸ hx)
      have hx64 : x < 64 := hlt x (List.mem_cons_of_mem _ hx)
      dsimp only
      have hcell : setCell s.grid (Int.ofNat (l / 8)) (Int.ofNat (l % 8)) mine
          (Int.ofNat (x / 8)) (Int.ofNat (x % 8))
          = s.grid (Int.ofNat (x / 8)) (Int.ofNat (x % 8)) := by
        unfold setCell
        rw [if_neg]
        intro ⟨h1, h2⟩
        simp only [Int.ofNat_eq_natCast] at h1 h2
        exact hxl (by omega)
      rw [hcell]
      exact hfresh x (List.mem_cons_of_mem _ hx)

/-- The count of a freshly randomly-constructed state: the ten sampled
flat indices are distinct and in range (`rand.sample` guarantees this),
so the board holds exactly ten mines and `number_of_mines = 10`. -/
theorem initRandom_count (sample : List Nat) (hnodup : sample.Nodup)
    (hlt : ∀ l, l ∈ sample → l < 64) (hlen : sample.length = 10) :
    mineExplodedCount (initRandom sample).grid = (initRandom sample).number_of_mines := by
  have h := initRandomFold_count sample { emptyState with number_of_mines := 10 }
    hnodup hlt (fun l _ => rfl)
  rw [initRandom, h.1, h.2, hlen]
  rfl

/-! ### Preservation along operations -/

theorem applyOp_preserves (s t : GameState) (op : Op)
    (hP : noResweepExploded s op) (h : applyOp s op = some t) :
    mineExplodedCount t.grid = mineExplodedCount s.grid ∧
    t.number_of_mines = s.number_of_mines := by
  cases op with
  | sweepOp r c =>
    rcases hr : npResolve r with _ | r1
    · rw [applyOp, sweep_tile_none s r c (Or.inl hr)] at h
      cases h
    · rcases hc : npResolve c with _ | c1
      · rw [applyOp, sweep_tile_none s r c (Or.inr hc)] at h
        cases h
      · rw [applyOp, sweep_tile_eq s r c r1 c1 hr hc] at h
        have hne : s.grid r1 c1 ≠ exploded := hP r c r1 c1 rfl hr hc
        injection h with h
        subst h
        obtain ⟨hg, -, -, -, hn⟩ := check_game_state_grid _
        rw [hg, hn]
        dsimp only
        refine ⟨?_, rfl⟩
        have hmem : (r1, c1) ∈ cellList := by
          rw [mem_cellList]
          have h1 := npResolve_bounds r r1 hr
          have h2 := npResolve_bounds c c1 hc
          exact ⟨h1.1, h1.2, h2.1, h2.2⟩
        by_cases hm : s.grid r1 c1 = mine
        · rw [if_pos hm]
          apply countCells_setCell_same _ _ _ _ _ hmem
          rw [hm]
          rfl
        · rw [if_neg hm]
          apply countCells_setCell_same _ _ _ _ _ hmem
          rw [isMineOrExploded_of_le _ (sum_adjacent_mines_le _ r c)]
          unfold isMineOrExploded
          have h1 : (s.grid r1 c1 == mine) = false := by
            rw [beq_eq_false_iff_ne]
            exact hm
          have h2 : (s.grid r1 c1 == exploded) = false := by
            rw [beq_eq_false_iff_ne]
            exact hne
          rw [h1, h2]
          rfl
  | flagOp r c =>
    rcases hr : npResolve r with _ | r1
    · rw [applyOp, flag_tile_none s r c (Or.inl hr)] at h
      cases h
    · rcases hc : npResolve c with _ | c1
      · rw [applyOp, flag_tile_none s r c (Or.inr hc)] at h
        cases h
      · rw [applyOp, flag_tile_eq s r c r1 c1 hr hc] at h
        injection h with h
        subst h
        exact ⟨rfl, rfl⟩
  | clearOp =>
    rw [applyOp] at h
    injection h with h
    subst h
    exact ⟨rfl, rfl⟩
  | quitOp =>
    rw [applyOp] at h
    injection h with h
    subst h
    exact ⟨rfl, rfl⟩

theorem applyOp_flags_mono (s t : GameState) (op : Op) (h : applyOp s op = some t) :
    (s.won = true → t.won = true) ∧ (s.lost = true → t.lost = true) := by
  cases op with
  | sweepOp r c =>
    rcases hr : npResolve r with _ | r1
    · rw [applyOp, sweep_tile_none s r c (Or.inl hr)] at h
      cases h
    · rcases hc : npResolve c with _ | c1
      · rw [applyOp, sweep_tile_none s r c (Or.inr hc)] at h
        cases h
      · rw [applyOp, sweep_tile_eq s r c r1 c1 hr hc] at h
        injection h with h
        subst h
        rcases check_game_state_cases
          { s with swept := setCellB s.swept r1 c1 true,
                   grid := setCell s.grid r1 c1
                     (if s.grid r1 c1 = mine then exploded
                      else sum_adjacent_mines s r c) } with hcc | hcc | hcc <;>
          rw [hcc]
        · exact ⟨fun h => h, fun _ => rfl⟩
        · exact ⟨fun _ => rfl, fun h => h⟩
        · exact ⟨fun h => h, fun h => h⟩
  | flagOp r c =>
    rcases hr : npResolve r with _ | r1
    · rw [applyOp, flag_tile_none s r c (Or.inl hr)] at h
      cases h
    · rcases hc : npResolve c with _ | c1
      · rw [applyOp, flag_tile_none s r c (Or.inr hc)] at h
        cases h
      · rw [applyOp, flag_tile_eq s r c r1 c1 hr hc] at h
        injection h with h
        subst h
        exact ⟨fun h => h, fun h => h⟩
  | clearOp =>
    rw [applyOp] at h
    injection h with h
    subst h
    exact ⟨fun h => h, fun h => h⟩
  | quitOp =>
    rw [applyOp] at h
    injection h with h
    subst h
    exact ⟨fun h => h, fun h => h⟩

theorem applyOp_mutex (s t : GameState) (op : Op)
    (hP : noSweepAfterEnd s op) (h : applyOp s op = some t)
    (hs : ¬(s.won = true ∧ s.lost = true)) :
    ¬(t.won = true ∧ t.lost = true) := by
  cases op with
  | sweepOp r c =>
    rcases hr : npResolve r with _ | r1
    · rw [applyOp, sweep_tile_none s r c (Or.inl hr)] at h
      cases h
    · rcases hc : npResolve c with _ | c1
      · rw [applyOp, sweep_tile_none s r c (Or.inr hc)] at h
        cases h
      · rw [applyOp, sweep_tile_eq s r c r1 c1 hr hc] at h
        injection h with h
        subst h
        obtain ⟨hwon, hlost⟩ := hP r c rfl
        rcases check_game_state_cases
          { s with swept := setCellB s.swept r1 c1 true,
                   grid := setCell s.grid r1 c1
                     (if s.grid r1 c1 = mine then exploded
                      else sum_adjacent_mines s r c) } with hcc | hcc | hcc <;>
          rw [hcc]
        · intro hcon
          rw [hwon] at hcon
          cases hcon.1
        · intro hcon
          rw [hlost] at hcon
          cases hcon.2
        · intro hcon
          rw [hwon] at hcon
          cases hcon.1
  | flagOp r c =>
    rcases hr : npResolve r with _ | r1
    · rw [applyOp, flag_tile_none s r c (Or.inl hr)] at h
      cases h
    · rcases hc : npResolve c with _ | c1
      · rw [applyOp, flag_tile_none s r c (Or.inr hc)] at h
        cases h
      · rw [applyOp, flag_tile_eq s r c r1 c1 hr hc] at h
        injection h with h
        subst h
        exact hs
  | clearOp =>
    rw [applyOp] at h
    injection h with h
    subst h
    exact hs
  | quitOp =>
    rw [applyOp] at h
    injection h with h
    subst h
    exact hs

/-! ### Reachability inductions -/

theorem reach_count (s0 s : GameState)
    (hreach : ReachesVia noResweepExploded s0 s) :
    mineExplodedCount s.grid = mineExplodedCount s0.grid ∧
    s.number_of_mines = s0.number_of_mines := by
  induction hreach with
  | refl => exact ⟨rfl, rfl⟩
  | step t u op h1 h2 h3 ih =>
    obtain ⟨hc, hn⟩ := applyOp_preserves t u op h2 h3
    exact ⟨hc.trans ih.1, hn.trans ih.2⟩

theorem reach_flags_mono (s0 s : GameState)
    (hreach : ReachesVia (fun _ _ => True) s0 s) :
    (s0.won = true → s.won = true) ∧ (s0.lost = true → s.lost = true) := by
  induction hreach with
  | refl => exact ⟨fun h => h, fun h => h⟩
  | step t u op h1 h2 h3 ih =>
    obtain ⟨hw, hl⟩ := applyOp_flags_mono t u op h3
    exact ⟨fun h => hw (ih.1 h), fun h => hl (ih.2 h)⟩

theorem reach_mutex (s0 s : GameState)
    (hreach : ReachesVia noSweepAfterEnd s0 s)
    (hs : ¬(s0.won = true ∧ s0.lost = true)) :
    ¬(s.won = true ∧ s.lost = true) := by
  induction hreach with
  | refl => exact hs
  | step t u op h1 h2 h3 ih =>
    exact applyOp_mutex t u op h2 h3 ih

/-! ### Toggle involution -/

theorem setCellB_toggle (f : BGrid) (r c : Int) :
    setCellB (setCellB f r c (!(f r c))) r c
      (!(setCellB f r c (!(f r c)) r c)) = f := by
  funext i j
  by_cases hij : i = r ∧ j = c
  · show (if i = r ∧ j = c then !(setCellB f r c (!(f r c)) r c) else _) = f i j
    rw [if_pos hij]
    show (!(if r = r ∧ c = c then !(f r c) else f r c)) = f i j
    rw [if_pos ⟨rfl, rfl⟩, Bool.not_not, hij.1, hij.2]
  · show (if i = r ∧ j = c then _ else setCellB f r c (!(f r c)) i j) = f i j
    rw [if_neg hij]
    show (if i = r ∧ j = c then !(f r c) else f i j) = f i j
    rw [if_neg hij]

/-! ### The claims -/

/-- C1 counterexample: the constructor counts valid entries with
multiplicity, so the duplicate list `[(0,0), (0,0)]` yields
`number_of_mines = 2` while only one cell holds `mine`; and an entry that
unpacks into two non-integers makes `valid_location` raise, aborting
construction, instead of being silently skipped. -/
theorem C1_cex :
    (initExplicit [LocArg.pair 0 0, LocArg.pair 0 0]).map
        (fun s => (s.number_of_mines, countCells s.grid (fun v => v == mine)))
      = some (2, 1) ∧
    initExplicit [LocArg.twoNonInts] = none :=
  ⟨by decide, rfl⟩

/-- C1 (amended): for every construction from an explicit list containing
no two-non-integer entry, construction succeeds, `number_of_mines` equals
the count of valid locations in the list taken with multiplicity
(duplicate valid locations are double-counted in `number_of_mines`), the
cells holding `mine` are exactly the distinct valid locations of the
list, and out-of-range or non-unpackable entries are skipped without
affecting the remaining entries. -/
theorem C1_amended (entries : List LocArg) (h : LocArg.twoNonInts ∉ entries) :
    ∃ s, initExplicit entries = some s ∧
      s.number_of_mines = (validLocs entries).length ∧
      (∀ i j : Int, s.grid i j = mine ↔ (i, j) ∈ validLocs entries) := by
  obtain ⟨s1, hloop, hnum, hiff, _, _, _, _, _, _⟩ := placeLoop_spec entries emptyState h
  refine ⟨s1, hloop, by rw [hnum]; exact Nat.zero_add _, ?_⟩
  intro i j
  rw [hiff i j]
  constructor
  · rintro (hm | hmem)
    · exact absurd hm (show (9 : Nat) = 10 → False by decide)
    · exact hmem
  · intro hmem
    right
    exact hmem

/-- C1 witness: a mixed list with one out-of-range and one malformed
entry constructs a board whose mines are exactly the valid locations. -/
theorem C1_witness :
    ∃ s, initExplicit [LocArg.pair 0 1, LocArg.malformed, LocArg.pair 9 9] = some s ∧
      s.number_of_mines =
        (validLocs [LocArg.pair 0 1, LocArg.malformed, LocArg.pair 9 9]).length ∧
      (∀ i j : Int, s.grid i j = mine ↔
        (i, j) ∈ validLocs [LocArg.pair 0 1, LocArg.malformed, LocArg.pair 9 9]) :=
  C1_amended [LocArg.pair 0 1, LocArg.malformed, LocArg.pair 9 9] (by decide)

/-- C2 counterexample: sweeping the lone mine at (0,0) and then sweeping
the same cell again overwrites the `Exploded` cell with an adjacency
count, leaving zero mine-or-exploded cells while `number_of_mines` is
still 1; and a duplicate construction list gives one mine-or-exploded
cell against `number_of_mines = 2` already at the initial state. -/
theorem C2_cex :
    ((initExplicit [LocArg.pair 0 0]).bind
        (fun s0 => run s0 [Op.sweepOp 0 0, Op.sweepOp 0 0])).map
        (fun s => (mineExplodedCount s.grid, s.number_of_mines)) = some (0, 1) ∧
    (initExplicit [LocArg.pair 0 0, LocArg.pair 0 0]).map
        (fun s => (mineExplodedCount s.grid, s.number_of_mines)) = some (1, 2) :=
  ⟨by decide, by decide⟩

/-- C2 (amended): from an engine constructed from an explicit list whose
valid locations are distinct (or by random placement of ten distinct
in-range flat indices, which `rand.sample` guarantees), in every state
reachable by sweep, toggle-flag, clear-swept-flags and request-quit
operations in which no sweep is applied to a cell currently holding
`Exploded`, exactly `number_of_mines` cells hold `Mine` or `Exploded`. -/
theorem C2_amended :
    (∀ entries s0 s, LocArg.twoNonInts ∉ entries → (validLocs entries).Nodup →
      initExplicit entries = some s0 →
      ReachesVia noResweepExploded s0 s →
      mineExplodedCount s.grid = s.number_of_mines) ∧
    (∀ sample s, sample.Nodup → (∀ l, l ∈ sample → l < 64) → sample.length = 10 →
      ReachesVia noResweepExploded (initRandom sample) s →
      mineExplodedCount s.grid = s.number_of_mines) := by
  constructor
  · intro entries s0 s hno hnodup hinit hreach
    obtain ⟨hc, hn⟩ := reach_count s0 s hreach
    rw [hc, hn]
    exact initExplicit_count entries hno hnodup s0 hinit
  · intro sample s hnodup hlt hlen hreach
    obtain ⟨hc, hn⟩ := reach_count _ s hreach
    rw [hc, hn]
    exact initRandom_count sample hnodup hlt hlen

/-- C2 witness: the invariant instantiated at the freshly constructed
one-mine board and the empty reachability sequence. -/
theorem C2_witness :
    mineExplodedCount ((initExplicit [LocArg.pair 0 1]).getD emptyState).grid
      = ((initExplicit [LocArg.pair 0 1]).getD emptyState).number_of_mines :=
  C2_amended.1 [LocArg.pair 0 1] ((initExplicit [LocArg.pair 0 1]).getD emptyState)
    ((initExplicit [LocArg.pair 0 1]).getD emptyState)
    (by decide) (by decide) (by rfl)
    (ReachesVia.refl ((initExplicit [LocArg.pair 0 1]).getD emptyState))

/-- C3: for every valid location, `sweep_tile` succeeds, marks the swept
overlay true there, turns a `mine` cell into `exploded` and any other
cell into `sum_adjacent_mines` (which is at most 8 and counts only
undetonated mines among the valid neighbours), and the result is the
post-update state re-evaluated by `check_game_state`. -/
theorem C3_sweep (s : GameState) (r c : Int) (h : valid_location r c = true) :
    ∃ u, sweep_tile s r c = some u ∧
      u.swept r c = true ∧
      (s.grid r c = mine → u.grid r c = exploded) ∧
      (s.grid r c ≠ mine → u.grid r c = sum_adjacent_mines s r c) ∧
      sum_adjacent_mines s r c ≤ 8 ∧
      u = check_game_state
        { s with swept := setCellB s.swept r c true,
                 grid := setCell s.grid r c
                   (if s.grid r c = mine then exploded
                    else sum_adjacent_mines s r c) } := by
  have hb := (valid_location_iff r c).mp h
  have hr := npResolve_of_valid r hb.1 hb.2.1
  have hc := npResolve_of_valid c hb.2.2.1 hb.2.2.2
  refine ⟨_, sweep_tile_eq s r c r c hr hc, ?_, ?_, ?_,
    sum_adjacent_mines_le s r c, rfl⟩
  · obtain ⟨-, hsw, -, -, -⟩ := check_game_state_grid
      { s with swept := setCellB s.swept r c true,
               grid := setCell s.grid r c
                 (if s.grid r c = mine then exploded
                  else sum_adjacent_mines s r c) }
    rw [hsw]
    show (if r = r ∧ c = c then true else s.swept r c) = true
    rw [if_pos ⟨rfl, rfl⟩]
  · intro hm
    obtain ⟨hg, -, -, -, -⟩ := check_game_state_grid
      { s with swept := setCellB s.swept r c true,
               grid := setCell s.grid r c
                 (if s.grid r c = mine then exploded
                  else sum_adjacent_mines s r c) }
    rw [hg]
    show (if r = r ∧ c = c then (if s.grid r c = mine then exploded
        else sum_adjacent_mines s r c) else s.grid r c) = exploded
    rw [if_pos ⟨rfl, rfl⟩, if_pos hm]
  · intro hm
    obtain ⟨hg, -, -, -, -⟩ := check_game_state_grid
      { s with swept := setCellB s.swept r c true,
               grid := setCell s.grid r c
                 (if s.grid r c = mine then exploded
                  else sum_adjacent_mines s r c) }
    rw [hg]
    show (if r = r ∧ c = c then (if s.grid r c = mine then exploded
        else sum_adjacent_mines s r c) else s.grid r c) = sum_adjacent_mines s r c
    rw [if_pos ⟨rfl, rfl⟩, if_neg hm]

/-- C3 witness: sweeping (0,0) on an empty board. -/
theorem C3_witness :
    valid_location 0 0 = true ∧
    ∃ u, sweep_tile emptyState 0 0 = some u ∧
      u.swept 0 0 = true ∧
      (emptyState.grid 0 0 = mine → u.grid 0 0 = exploded) ∧
      (emptyState.grid 0 0 ≠ mine → u.grid 0 0 = sum_adjacent_mines emptyState 0 0) ∧
      sum_adjacent_mines emptyState 0 0 ≤ 8 ∧
      u = check_game_state
        { emptyState with swept := setCellB emptyState.swept 0 0 true,
                          grid := setCell emptyState.grid 0 0
                            (if emptyState.grid 0 0 = mine then exploded
                             else sum_adjacent_mines emptyState 0 0) } :=
  ⟨by decide, C3_sweep emptyState 0 0 (by decide)⟩

/-- C4: `check_game_state` tests the exploded condition first: with an
`exploded` cell present it sets only `lost` (leaving `won` as it was);
with no `exploded` and no `unexplored` cell it sets only `won`; otherwise
it returns the state unchanged. -/
theorem C4_check (s : GameState) :
    ((∃ p, p ∈ cellList ∧ s.grid p.1 p.2 = exploded) →
      check_game_state s = { s with lost := true }) ∧
    (¬(∃ p, p ∈ cellList ∧ s.grid p.1 p.2 = exploded) →
      ¬(∃ p, p ∈ cellList ∧ s.grid p.1 p.2 = unexplored) →
      check_game_state s = { s with won := true }) ∧
    (¬(∃ p, p ∈ cellList ∧ s.grid p.1 p.2 = exploded) →
      (∃ p, p ∈ cellList ∧ s.grid p.1 p.2 = unexplored) →
      check_game_state s = s) := by
  refine ⟨?_, ?_, ?_⟩
  · intro he
    unfold check_game_state
    rw [if_pos ((gridContains_iff s.grid exploded).mpr he)]
  · intro he hu
    have he2 : gridContains s.grid exploded = false := by
      cases hx : gridContains s.grid exploded
      · rfl
      · exact absurd ((gridContains_iff s.grid exploded).mp hx) he
    have hu2 : gridContains s.grid unexplored = false := by
      cases hx : gridContains s.grid unexplored
      · rfl
      · exact absurd ((gridContains_iff s.grid unexplored).mp hx) hu
    unfold check_game_state
    rw [he2]
    rw [if_neg Bool.false_ne_true, if_pos hu2]
  · intro he hu
    have he2 : gridContains s.grid exploded = false := by
      cases hx : gridContains s.grid exploded
      · rfl
      · exact absurd ((gridContains_iff s.grid exploded).mp hx) he
    have hu2 : gridContains s.grid unexplored = true :=
      (gridContains_iff s.grid unexplored).mpr hu
    unfold check_game_state
    rw [he2, hu2]
    rw [if_neg Bool.false_ne_true, if_neg (by decide : ¬((true : Bool) = false))]

/-- C4 witness: a board with a single detonated mine and no unexplored
cell is scored as a loss, with `won` left untouched. -/
theorem C4_witness :
    check_game_state { emptyState with grid := setCell (fun _ _ => 0) 0 0 exploded }
      = { { emptyState with grid := setCell (fun _ _ => 0) 0 0 exploded }
          with lost := true } :=
  (C4_check _).1 ⟨(0, 0), by decide, by decide⟩

/-- The operation sequence refuting mutual exclusion of `won` and `lost`:
sweep the 63 safe cells of a one-mine board, then sweep the mine. -/
def c5ops : List Op :=
  (cellList.filter (fun p => p ≠ ((0 : Int), (1 : Int)))).map
    (fun p => Op.sweepOp p.1 p.2) ++ [Op.sweepOp 0 1]

/-- C5 counterexample: on a board with one mine at (0,1), sweeping all 63
safe cells sets `won`, after which sweeping the mine also sets `lost`, so
a reachable state has both flags true. -/
theorem C5_cex :
    ((initExplicit [LocArg.pair 0 1]).bind (fun s0 => run s0 c5ops)).map
        (fun s => (s.won, s.lost)) = some (true, true) := by
  decide

/-- C5 (amended): once `won` or `lost` becomes true it never becomes
false again under any operation sequence; and `won` and `lost` are never
both true in any state reached without performing a sweep from a state
where the game was already decided. -/
theorem C5_amended :
    (∀ s0 s, ReachesVia (fun _ _ => True) s0 s →
      (s0.won = true → s.won = true) ∧ (s0.lost = true → s.lost = true)) ∧
    (∀ s0 s, s0.won = false → s0.lost = false →
      ReachesVia noSweepAfterEnd s0 s → ¬(s.won = true ∧ s.lost = true)) := by
  constructor
  · exact reach_flags_mono
  · intro s0 s hw hl hreach
    apply reach_mutex s0 s hreach
    intro hcon
    rw [hw] at hcon
    cases hcon.1

/-- C5 witness: both parts instantiated at the empty reachability
sequence from the pristine state. -/
theorem C5_witness :
    ((emptyState.won = true → emptyState.won = true) ∧
      (emptyState.lost = true → emptyState.lost = true)) ∧
    ¬(emptyState.won = true ∧ emptyState.lost = true) :=
  ⟨C5_amended.1 emptyState emptyState (ReachesVia.refl emptyState),
   C5_amended.2 emptyState emptyState (by decide) (by decide)
     (ReachesVia.refl emptyState)⟩

/-- C6 counterexample: flagging (1,2) and then sweeping (1,2) — a
completed sweep of a valid location — leaves the cell both swept and
flagged: `sweep_tile` itself never touches the flag overlay; the clearing
lives in the separate `clear_swept_flags` pass that the caller invokes. -/
theorem C6_cex :
    ((initExplicit []).bind
        (fun s0 => (flag_tile s0 1 2).bind (fun s1 => sweep_tile s1 1 2))).map
        (fun s => (s.swept 1 2, s.flagged 1 2)) = some (true, true) := by
  decide

/-- C6 (amended): after a completed sweep followed by the
`clear_swept_flags` pass (invoked after every action in the reference
flow), no swept cell is flagged. -/
theorem C6_amended (s : GameState) (r c : Int) (u : GameState)
    (_h : sweep_tile s r c = some u) :
    ∀ i j : Int, (clear_swept_flags u).swept i j = true →
      (clear_swept_flags u).flagged i j = false := by
  intro i j hs
  have hs1 : u.swept i j = true := hs
  show (if u.swept i j then false else u.flagged i j) = false
  rw [hs1]
  rfl

/-- C6 witness: sweeping (0,0) on an empty board and clearing leaves
(0,0) swept and unflagged. -/
theorem C6_witness :
    (clear_swept_flags ((sweep_tile emptyState 0 0).getD emptyState)).swept 0 0 = true ∧
    (clear_swept_flags ((sweep_tile emptyState 0 0).getD emptyState)).flagged 0 0 = false :=
  ⟨by decide, C6_amended emptyState 0 0 _ rfl 0 0 (by decide)⟩

/-- C7: `player_view` shows the flag sentinel at every flagged cell (flag
rendering takes precedence), masks unflagged `mine` and `unexplored`
cells to the unknown marker (NaN, here `none`), and passes every other
unflagged cell through unchanged.  The embedding of `player_view` is a
pure function because the source writes only into a freshly allocated
`view` array, leaving `grid`, `flagged`, `swept` and the outcome flags
untouched. -/
theorem C7_view (s : GameState) (i j : Int) :
    (s.flagged i j = true → player_view s i j = some flag) ∧
    (s.flagged i j = false → (s.grid i j = mine ∨ s.grid i j = unexplored) →
      player_view s i j = none) ∧
    (s.flagged i j = false → s.grid i j ≠ mine → s.grid i j ≠ unexplored →
      player_view s i j = some (s.grid i j)) := by
  refine ⟨?_, ?_, ?_⟩
  · intro hf
    show (if s.flagged i j then some flag
      else if s.grid i j = unexplored then none
      else if s.grid i j = mine then none else some (s.grid i j)) = some flag
    rw [hf]
    rfl
  · intro hf hmu
    show (if s.flagged i j then some flag
      else if s.grid i j = unexplored then none
      else if s.grid i j = mine then none else some (s.grid i j)) = none
    rw [hf]
    show (if s.grid i j = unexplored then none
      else if s.grid i j = mine then none else some (s.grid i j)) = none
    rcases hmu with hm | hu
    · by_cases hu2 : s.grid i j = unexplored
      · rw [if_pos hu2]
      · rw [if_neg hu2, if_pos hm]
    · rw [if_pos hu]
  · intro hf hm hu
    show (if s.flagged i j then some flag
      else if s.grid i j = unexplored then none
      else if s.grid i j = mine then none else some (s.grid i j)) = some (s.grid i j)
    rw [hf]
    show (if s.grid i j = unexplored then none
      else if s.grid i j = mine then none else some (s.grid i j)) = some (s.grid i j)
    rw [if_neg hu, if_neg hm]

/-- C7 witness: a flagged cell renders as the flag sentinel. -/
theorem C7_witness :
    player_view { emptyState with flagged := setCellB emptyState.flagged 0 0 true } 0 0
      = some flag :=
  (C7_view { emptyState with flagged := setCellB emptyState.flagged 0 0 true } 0 0).1
    (by decide)

/-- C8: `valid_location` on an input that unpacks into two non-integer
components raises an uncaught TypeError (the `try` block guards only the
unpacking, not the bounds comparison), contradicting the contract that it
returns false for any malformed input without raising; on inputs that
unpack into two integers it is the in-range test, and inputs that fail to
unpack yield `False` without raising. -/
theorem C8_validLocation :
    valid_location_arg LocArg.twoNonInts = none ∧
    valid_location_arg LocArg.malformed = some false ∧
    (∀ r c : Int, valid_location_arg (LocArg.pair r c) = some (valid_location r c)) ∧
    (∀ r c : Int, valid_location r c = true ↔ (0 ≤ r ∧ r < 8 ∧ 0 ≤ c ∧ c < 8)) :=
  ⟨rfl, rfl, fun _ _ => rfl, valid_location_iff⟩

/-- C9 counterexample: the invalid location (-1,-1) — rejected by
`valid_location` — does not make `flag_tile` raise: numpy negative
indexing silently toggles the flag of cell (7,7). -/
theorem C9_cex :
    ((initExplicit []).bind (fun s0 => flag_tile s0 (-1) (-1))).map
        (fun u => u.flagged 7 7) = some true ∧
    valid_location (-1) (-1) = false :=
  ⟨by decide, by decide⟩

/-- C9 (amended): `flag_tile` fails loudly (numpy IndexError) exactly for
locations with a component at or beyond the dimension, or below its
negation; invalid locations whose components lie in -8..-1 are silently
accepted, toggling the flag at the wrapped (negatively indexed) cell. -/
theorem C9_amended :
    (∀ s : GameState, ∀ r c : Int,
      (8 ≤ r ∨ r < -8 ∨ 8 ≤ c ∨ c < -8) → flag_tile s r c = none) ∧
    (∀ s : GameState, ∀ r c r1 c1 : Int,
      npResolve r = some r1 → npResolve c = some c1 →
      flag_tile s r c =
        some { s with flagged := setCellB s.flagged r1 c1 (!(s.flagged r1 c1)) }) := by
  constructor
  · intro s r c h
    have hnone : ∀ i : Int, (8 ≤ i ∨ i < -8) → npResolve i = none := by
      intro i hi
      unfold npResolve
      rw [if_neg (by omega), if_neg (by omega)]
    rcases h with h | h | h | h
    · exact flag_tile_none s r c (Or.inl (hnone r (Or.inl h)))
    · exact flag_tile_none s r c (Or.inl (hnone r (Or.inr h)))
    · exact flag_tile_none s r c (Or.inr (hnone c (Or.inl h)))
    · exact flag_tile_none s r c (Or.inr (hnone c (Or.inr h)))
  · exact fun s r c r1 c1 hr hc => flag_tile_eq s r c r1 c1 hr hc

/-- C9 witness: location (8,0) raises, while (-1,-1) silently toggles the
flag at the wrapped cell (7,7). -/
theorem C9_witness :
    flag_tile emptyState 8 0 = none ∧
    flag_tile emptyState (-1) (-1) =
      some { emptyState with
             flagged := setCellB emptyState.flagged 7 7 (!(emptyState.flagged 7 7)) } :=
  ⟨C9_amended.1 emptyState 8 0 (Or.inl (by decide)),
   C9_amended.2 emptyState (-1) (-1) 7 7 (by decide) (by decide)⟩

/-- C10: toggling the flag twice at a valid location restores the engine
to exactly its original state, and the first toggle changes neither the
grid nor the swept overlay nor the `won`, `lost`, `quit` flags nor
`number_of_mines`. -/
theorem C10_toggle (s : GameState) (r c : Int) (h : valid_location r c = true) :
    ∃ u, flag_tile s r c = some u ∧ flag_tile u r c = some s ∧
      u.grid = s.grid ∧ u.swept = s.swept ∧ u.won = s.won ∧ u.lost = s.lost ∧
      u.quit = s.quit ∧ u.number_of_mines = s.number_of_mines := by
  have hb := (valid_location_iff r c).mp h
  have hr := npResolve_of_valid r hb.1 hb.2.1
  have hc := npResolve_of_valid c hb.2.2.1 hb.2.2.2
  refine ⟨_, flag_tile_eq s r c r c hr hc, ?_, rfl, rfl, rfl, rfl, rfl, rfl⟩
  rw [flag_tile_eq _ r c r c hr hc]
  dsimp only
  rw [setCellB_toggle s.flagged r c]

/-- C10 witness: the double toggle at (1,2) from the pristine state. -/
theorem C10_witness :
    ∃ u, flag_tile emptyState 1 2 = some u ∧ flag_tile u 1 2 = some emptyState ∧
      u.grid = emptyState.grid ∧ u.swept = emptyState.swept ∧
      u.won = emptyState.won ∧ u.lost = emptyState.lost ∧
      u.quit = emptyState.quit ∧ u.number_of_mines = emptyState.number_of_mines :=
  C10_toggle emptyState 1 2 (by decide)

end Mineclicker
